import Mathlib

/-!
Verification of the june-app matchmaking / WebRTC signaling core.

This file gives a shallow embedding of the server-side matchmaking and
relay state machine (src/signaling-server/server.js) and of the
client-side negotiation pieces (src/src/hooks/useCallState.ts,
src/src/services/webrtcService.ts, src/unnamed/part_007 = the
WebSocket SignalingService with rate limiting), and proves or refutes
the specification claims about them.

The JavaScript collections are modelled as insertion-ordered
association lists (JS `Map`) and insertion-ordered duplicate-free
lists (JS `Set`), which matches their iteration semantics
(`Array.from(set)[0]`, `for (const [k,v] of map.entries())`).
-/

namespace JuneApp

/-! ## Association-list model of JS `Map` and `Set` -/

/-- JS `Map.set`: replace the (unique) entry with this key in place,
otherwise append at the end (JS maps iterate in insertion order). -/
def mapSet {κ α : Type} [DecidableEq κ] : List (κ × α) → κ → α → List (κ × α)
  | [], k, v => [(k, v)]
  | p :: ps, k, v => if p.1 = k then (k, v) :: ps else p :: mapSet ps k v

/-- JS `Map.get`: the value of the first entry with this key. -/
def mapGet {κ α : Type} [DecidableEq κ] : List (κ × α) → κ → Option α
  | [], _ => none
  | p :: ps, k => if p.1 = k then some p.2 else mapGet ps k

/-- JS `Map.delete`: remove the (unique) entry with this key. -/
def mapDelete {κ α : Type} [DecidableEq κ] : List (κ × α) → κ → List (κ × α)
  | [], _ => []
  | p :: ps, k => if p.1 = k then ps else p :: mapDelete ps k

/-- JS `Set.add`: append if not already present (insertion order kept). -/
def setAdd (s : List String) (x : String) : List String :=
  if x ∈ s then s else s ++ [x]

/-- JS `Set.delete`: remove the element if present. -/
def setDelete (s : List String) (x : String) : List String :=
  s.filter (fun y => decide (y ≠ x))

/-! ## Server state (src/signaling-server/server.js)

`activeUsers` (line 28): `Map` socketId -> userInfo;
`waitingUsers` (line 29): `Set` of waiting socketIds;
`activeRooms` (line 30): `Map` roomId -> { user1, user2, createdAt }.

The `userSession` payload spread into the stored record is opaque to the
server, so it is modelled as a single `session : String` field; the server
adds `socketId` and `connectedAt` (lines 41-45). `uuidv4()` room ids are
modelled by a monotone counter (`nextRoomId`), which captures exactly the
property the server relies on: a fresh room id differs from every live one. -/

structure UserInfo where
  session : String
  socketId : String
  connectedAt : Nat
deriving DecidableEq, Repr

structure Room where
  user1 : String
  user2 : String
  createdAt : Nat
deriving DecidableEq, Repr

structure ServerState where
  activeUsers : List (String × UserInfo)
  waitingUsers : List String
  activeRooms : List (Nat × Room)
  nextRoomId : Nat
deriving DecidableEq, Repr

/-- Events the server emits to clients (`socket.emit` / `io.to(..).emit`). -/
inductive ServerEvent where
  | registrationSuccess (dest : String)
  | roomError (dest : String)
  | matchFound (dest : String) (roomId : Nat) (peerId : String) (partnerSession : String)
  | searchStarted (dest : String)
  | userLeft (dest : String) (leaver : String)
  | forwarded (dest : String) (msgType : String) (payload : String) (sender : String)
  | serverStats (dest : String)
deriving DecidableEq, Repr

/-- Test of `room.user1 === socket.id || room.user2 === socket.id`
(server.js lines 66, 150/154, 205). -/
def roomHas (r : Room) (sid : String) : Bool :=
  decide (r.user1 = sid ∨ r.user2 = sid)

/-- All sessionIds occurring as a participant of some active room,
in room order. -/
def occupantsOf : List (Nat × Room) → List String
  | [] => []
  | p :: ps => p.2.user1 :: p.2.user2 :: occupantsOf ps

/-- The `register-user` handler (server.js lines 38-51): unconditionally
`activeUsers.set(socket.id, {...userSession, socketId, connectedAt})`,
then emit `registration-success`. -/
def registerUser (s : ServerState) (sid : String) (sess : String) (now : Nat) :
    ServerState × List ServerEvent :=
  ({ s with activeUsers := mapSet s.activeUsers sid ⟨sess, sid, now⟩ },
   [ServerEvent.registrationSuccess sid])

/-- The `find-match` handler (server.js lines 54-139).

Control flow: unregistered -> `room-error`; already in a room -> silent
return; already waiting -> silent return; otherwise take
`Array.from(waitingUsers)[0]` (the earliest-inserted waiting user); if it
exists and differs from the requester, delete it from the pool, create the
room and emit `match-found` to both sides; otherwise add the requester to
the pool and emit `search-started`.  (The 30 s `no-match` timeout, lines
133-137, performs no state change and is advisory only, so it is not part
of the synchronous step.)  The unreachable `| _, _` fallback mirrors the
fact that the JS code would throw at `user1.socketId` only after
`waitingUsers.delete(waitingUser)` has already run. -/
def findMatch (s : ServerState) (sid : String) (now : Nat) :
    ServerState × List ServerEvent :=
  match mapGet s.activeUsers sid with
  | none => (s, [ServerEvent.roomError sid])
  | some _ =>
    if s.activeRooms.any (fun p => roomHas p.2 sid) then (s, [])
    else if sid ∈ s.waitingUsers then (s, [])
    else
      match s.waitingUsers.head? with
      | some w =>
        if w = sid then
          ({ s with waitingUsers := setAdd s.waitingUsers sid },
           [ServerEvent.searchStarted sid])
        else
          match mapGet s.activeUsers w, mapGet s.activeUsers sid with
          | some u1, some u2 =>
            ({ s with
                waitingUsers := setDelete s.waitingUsers w,
                activeRooms := mapSet s.activeRooms s.nextRoomId
                  ⟨u1.socketId, u2.socketId, now⟩,
                nextRoomId := s.nextRoomId + 1 },
             [ServerEvent.matchFound sid s.nextRoomId w u1.session,
              ServerEvent.matchFound w s.nextRoomId sid u2.session])
          | _, _ =>
            ({ s with waitingUsers := setDelete s.waitingUsers w }, [])
      | none =>
        ({ s with waitingUsers := setAdd s.waitingUsers sid },
         [ServerEvent.searchStarted sid])

/-- The `signaling-message` handler (server.js lines 142-173): find the
first room containing the sender (the loop breaks at the first hit), and
forward `message.data` plus `from` to the other participant under the
event name `message.type` — NO validation of the type is performed. -/
def signalingMessage (s : ServerState) (sid msgType payload : String) :
    ServerState × List ServerEvent :=
  match s.activeRooms.find? (fun p => roomHas p.2 sid) with
  | some p =>
    (s, [ServerEvent.forwarded (if p.2.user1 = sid then p.2.user2 else p.2.user1)
          msgType payload sid])
  | none => (s, [])

/-- The `leave-room` handler (server.js lines 176-194): look up the
client-supplied `data.roomId`; if the room exists, notify the *other*
participant (`user-left`) and delete the room. -/
def leaveRoom (s : ServerState) (sid : String) (roomId : Nat) :
    ServerState × List ServerEvent :=
  match mapGet s.activeRooms roomId with
  | some room =>
    ({ s with activeRooms := mapDelete s.activeRooms roomId },
     [ServerEvent.userLeft (if room.user1 = sid then room.user2 else room.user1) sid])
  | none => (s, [])

/-- The `disconnect` handler (server.js lines 197-224): remove the session
from the waiting pool, tear down the first room containing it (the loop
breaks after one hit), notify the other participant, and remove the
session from `activeUsers`. -/
def disconnect (s : ServerState) (sid : String) : ServerState × List ServerEvent :=
  match s.activeRooms.find? (fun p => roomHas p.2 sid) with
  | some p =>
    ({ s with waitingUsers := setDelete s.waitingUsers sid,
              activeRooms := mapDelete s.activeRooms p.1,
              activeUsers := mapDelete s.activeUsers sid },
     [ServerEvent.userLeft (if p.2.user1 = sid then p.2.user2 else p.2.user1) sid])
  | none =>
    ({ s with waitingUsers := setDelete s.waitingUsers sid,
              activeUsers := mapDelete s.activeUsers sid }, [])

/-- The `get-stats` handler (server.js lines 227-234): read-only. -/
def getStats (s : ServerState) (sid : String) : ServerState × List ServerEvent :=
  (s, [ServerEvent.serverStats sid])

/-- One inbound socket event, tagged with the connection (socket.id) it
arrives on. -/
inductive Op where
  | register (sid sess : String) (now : Nat)
  | findMatch (sid : String) (now : Nat)
  | signaling (sid msgType payload : String)
  | leaveRoom (sid : String) (roomId : Nat)
  | disconnect (sid : String)
  | getStats (sid : String)
deriving DecidableEq, Repr

def step (s : ServerState) : Op → ServerState × List ServerEvent
  | Op.register sid sess now => registerUser s sid sess now
  | Op.findMatch sid now => findMatch s sid now
  | Op.signaling sid t pl => signalingMessage s sid t pl
  | Op.leaveRoom sid rid => leaveRoom s sid rid
  | Op.disconnect sid => disconnect s sid
  | Op.getStats sid => getStats s sid

def initState : ServerState := ⟨[], [], [], 0⟩

/-- The server state reached after processing a sequence of socket events
from the initial (empty) state. -/
def run (ops : List Op) : ServerState :=
  ops.foldl (fun s op => (step s op).1) initState

/-! ## Client-side configuration and negotiation model

`allowedMessageTypes` comes from `SecurityConfig.content.allowedMessageTypes`
(src/src/config/security.ts lines 28-36).  Note that the only consumer of
this list, `SecurityUtils.isValidMessageType` (security.ts lines 79-81), is
called solely from `SecurityMonitor.validateWebRTCMessage`
(src/src/services/securityMonitor.ts line 144), which itself is never
invoked anywhere in the code base — in particular not on the server relay
path. -/
def allowedMessageTypes : List String :=
  ["register-user", "find-match", "offer", "answer", "ice-candidate",
   "leave-room", "get-stats"]

/-- Role decision of `handleMatchFound` (src/src/hooks/useCallState.ts
lines 345-347): `const mySocketId = signalingService.getSocketId()`
(`string | null`) and
`const shouldCreateOffer = mySocketId && mySocketId < data.peerId`.
A `null` socket id is falsy, so the whole conjunction is falsy; for a known
id the JS `<` on strings is lexicographic code-unit comparison, modelled by
the lexicographic order on `String`.  The same expression guards offer
creation in `useWebRTC` (src/unnamed/part_005 line 378) after an explicit
null check. -/
def shouldCreateOffer (mySocketId : Option String) (peerId : String) : Bool :=
  match mySocketId with
  | none => false
  | some me => decide (me < peerId)

/-- The two sides the client can take after `match-found`. -/
inductive NegotiationSide where
  | offerer (peerId : String)
  | answerer (peerId : String)
deriving DecidableEq, Repr

/-- Branch taken by `handleMatchFound` (useCallState.ts lines 349-364):
`if (shouldCreateOffer) { ... webRTCService.createOffer(data.peerId) }
else { console.log('Waiting for offer from peer:', data.peerId) }`. -/
def handleMatchFound (mySocketId : Option String) (peerId : String) :
    NegotiationSide :=
  if shouldCreateOffer mySocketId peerId then NegotiationSide.offerer peerId
  else NegotiationSide.answerer peerId

/-! ## WebRTC answer handling (src/src/services/webrtcService.ts) -/

/-- The `RTCPeerConnection.signalingState` values compared against in
`handleAnswer` (webrtcService.ts lines 885-897). -/
inductive PcSignalingState where
  | stable
  | haveLocalOffer
  | haveRemoteOffer
  | haveLocalPranswer
  | haveRemotePranswer
deriving DecidableEq, Repr

/-- The peer connection, reduced to what `handleAnswer` reads and writes:
its signaling state and the log of `setRemoteDescription` calls
(type/sdp pairs, in call order). -/
structure PeerConnection where
  signalingState : PcSignalingState
  remoteDescriptions : List (String × String)
deriving DecidableEq, Repr

/-- An SDP session description `{type, sdp}`; the truthiness checks
`!answer.type || !answer.sdp` are modelled as emptiness checks. -/
structure SessionDescription where
  type : String
  sdp : String
deriving DecidableEq, Repr

/-- An incoming answer message after extraction (webrtcService.ts lines
900-901): the description plus the sending peer (`data.from`). -/
structure AnswerMsg where
  answer : SessionDescription
  sender : String
deriving DecidableEq, Repr

/-- The slice of the service state `handleAnswer` touches:
`this.state.isConnected`, `this.state.lastProcessedAnswerKey`, and
`this.peerConnection`. -/
structure WebRTCSvc where
  isConnected : Bool
  lastProcessedAnswerKey : Option String
  peerConnection : Option PeerConnection
deriving DecidableEq, Repr

/-- `setRemoteDescription` with an answer: logs the call; per the WebRTC
state machine an answer applied in `have-local-offer` (or
`have-remote-pranswer`) moves the signaling state to `stable`. -/
def setRemoteDescription (pc : PeerConnection) (d : SessionDescription) :
    PeerConnection :=
  { signalingState := PcSignalingState.stable,
    remoteDescriptions := pc.remoteDescriptions ++ [(d.type, d.sdp)] }

/-- The duplicate-answer fingerprint (webrtcService.ts line 909):
`const answerKey = from + "_" + answer.sdp.substring(0, 50)`. -/
def answerFingerprint (m : AnswerMsg) : String :=
  m.sender ++ "_" ++ m.answer.sdp.take 50

/-- `handleAnswer` (webrtcService.ts lines 869-927), guard for guard:
skip when already connected; skip without a peer connection; skip in
`stable`; skip in any state other than `have-local-offer` /
`have-remote-pranswer`; reject an invalid description; drop a repeated
fingerprint; otherwise record the fingerprint and call
`setRemoteDescription`. -/
def handleAnswer (svc : WebRTCSvc) (m : AnswerMsg) : WebRTCSvc :=
  if svc.isConnected then svc
  else
    match svc.peerConnection with
    | none => svc
    | some pc =>
      if pc.signalingState = PcSignalingState.stable then svc
      else if pc.signalingState ≠ PcSignalingState.haveLocalOffer ∧
              pc.signalingState ≠ PcSignalingState.haveRemotePranswer then svc
      else if m.answer.type = "" ∨ m.answer.sdp = "" then svc
      else if svc.lastProcessedAnswerKey = some (answerFingerprint m) then svc
      else
        { isConnected := svc.isConnected,
          lastProcessedAnswerKey := some (answerFingerprint m),
          peerConnection := some (setRemoteDescription pc m.answer) }

/-- Number of `setRemoteDescription` calls recorded so far. -/
def remoteDescCount (svc : WebRTCSvc) : Nat :=
  match svc.peerConnection with
  | none => 0
  | some pc => pc.remoteDescriptions.length

/-! ## Client rate limiter (src/unnamed/part_007, SignalingService)

`isRateLimited` (lines 70-80) keeps `lastMessageTime` and `messageCount`;
when more than `rateLimitWindow` ms have passed since `lastMessageTime` it
resets the counter and re-anchors the window at `now`; it then increments
the counter (dropped messages included) and reports the limit as exceeded
when the counter passes `maxMessagesPerWindow`.  `sendMessage` (lines
333-371) returns early — dropping the message, nothing is queued — when
`isRateLimited()` is true. -/

structure RateLimitState where
  lastMessageTime : Nat
  messageCount : Nat
deriving DecidableEq, Repr

def rateLimitWindow : Nat := 1000

def maxMessagesPerWindow : Nat := 10

/-- `isRateLimited` (part_007 lines 70-80).  Returns the verdict and the
updated counters. -/
def isRateLimited (st : RateLimitState) (now : Nat) : Bool × RateLimitState :=
  let st1 := if now - st.lastMessageTime > rateLimitWindow
             then { lastMessageTime := now, messageCount := 0 }
             else st
  let st2 : RateLimitState :=
    { lastMessageTime := st1.lastMessageTime, messageCount := st1.messageCount + 1 }
  (decide (st2.messageCount > maxMessagesPerWindow), st2)

/-- The rate-limiting path of `sendMessage` (part_007 lines 333-343), for a
connected socket: the Bool is `true` when the message is actually sent and
`false` when it is dropped by the limiter. -/
def sendMessage (st : RateLimitState) (now : Nat) : Bool × RateLimitState :=
  let r := isRateLimited st now
  (!r.1, r.2)

/-- Deliveries of a whole schedule of send attempts (timestamps in call
order): the list of per-message sent/dropped flags and the final state. -/
def runSend (st : RateLimitState) : List Nat → List Bool × RateLimitState
  | [] => ([], st)
  | t :: ts =>
    let r := sendMessage st t
    let rest := runSend r.2 ts
    (r.1 :: rest.1, rest.2)

/-! ## The reachable-state invariant -/

/-- Invariant of the server state: the concatenated occupant list of all
rooms is duplicate-free (no session in two rooms, no two rooms sharing a
participant, the two slots of a room distinct), the pool is a genuine set
disjoint from the rooms, everybody waiting or in a room is registered, the
stored `socketId` of a registered user equals its map key, and room keys
are fresh bounded by the counter. -/
structure Inv (s : ServerState) : Prop where
  occ_nodup : (occupantsOf s.activeRooms).Nodup
  waiting_nodup : s.waitingUsers.Nodup
  waiting_disjoint : ∀ x ∈ s.waitingUsers, x ∉ occupantsOf s.activeRooms
  waiting_registered : ∀ x ∈ s.waitingUsers, (mapGet s.activeUsers x).isSome = true
  occ_registered : ∀ x ∈ occupantsOf s.activeRooms, (mapGet s.activeUsers x).isSome = true
  users_consistent : ∀ p ∈ s.activeUsers, (p.2 : UserInfo).socketId = p.1
  rooms_fresh : ∀ p ∈ s.activeRooms, (p.1 : Nat) < s.nextRoomId
  rooms_keys_nodup : (s.activeRooms.map Prod.fst).Nodup
  users_keys_nodup : (s.activeUsers.map Prod.fst).Nodup

section MapLemmas

variable {κ α : Type} [DecidableEq κ]

theorem mapGet_mapSet_self (m : List (κ × α)) (k : κ) (v : α) :
    mapGet (mapSet m k v) k = some v := by
  induction m with
  | nil => simp [mapSet, mapGet]
  | cons p ps ih =>
    by_cases h : p.1 = k
    · simp [mapSet, mapGet, h]
    · simp [mapSet, mapGet, h, ih]

theorem mapGet_mapSet_ne (m : List (κ × α)) (k k' : κ) (v : α) (h : k' ≠ k) :
    mapGet (mapSet m k v) k' = mapGet m k' := by
  induction m with
  | nil => simp [mapSet, mapGet, Ne.symm h]
  | cons p ps ih =>
    by_cases hp : p.1 = k
    · subst hp
      simp [mapSet, mapGet, Ne.symm h]
    · by_cases hp' : p.1 = k'
      · simp [mapSet, mapGet, hp, hp', h]
      · simp [mapSet, mapGet, hp, hp', ih]

theorem mapSet_eq_append (m : List (κ × α)) (k : κ) (v : α)
    (h : k ∉ m.map Prod.fst) : mapSet m k v = m ++ [(k, v)] := by
  induction m with
  | nil => simp [mapSet]
  | cons p ps ih =>
    simp only [List.map_cons, List.mem_cons, not_or] at h
    have hne : ¬p.1 = k := fun hh => h.1 hh.symm
    simp [mapSet, hne, ih h.2]

theorem keys_mapSet_of_mem (m : List (κ × α)) (k : κ) (v : α)
    (h : k ∈ m.map Prod.fst) : (mapSet m k v).map Prod.fst = m.map Prod.fst := by
  induction m with
  | nil => simp at h
  | cons p ps ih =>
    by_cases hp : p.1 = k
    · simp [mapSet, hp]
    · simp only [List.map_cons, List.mem_cons, Ne.symm hp, false_or] at h
      simp [mapSet, hp, ih h]

theorem mem_mapSet (m : List (κ × α)) (k : κ) (v : α) (p : κ × α)
    (hp : p ∈ mapSet m k v) : p ∈ m ∨ p = (k, v) := by
  induction m with
  | nil => simp [mapSet] at hp; simp [hp]
  | cons q qs ih =>
    by_cases hq : q.1 = k
    · simp only [mapSet, if_pos hq, List.mem_cons] at hp
      rcases hp with h | h
      · right; exact h
      · left; simp [h]
    · simp only [mapSet, if_neg hq, List.mem_cons] at hp
      rcases hp with h | h
      · left; simp [h]
      · rcases ih h with h' | h'
        · left; simp [h']
        · right; exact h'

theorem mapDelete_sublist (m : List (κ × α)) (k : κ) : (mapDelete m k).Sublist m := by
  induction m with
  | nil => simp [mapDelete]
  | cons p ps ih =>
    by_cases hp : p.1 = k
    · simp [mapDelete, hp]
    · simpa [mapDelete, hp] using ih.cons₂ p

theorem mem_mapDelete_subset (m : List (κ × α)) (k : κ) (p : κ × α)
    (hp : p ∈ mapDelete m k) : p ∈ m :=
  (mapDelete_sublist m k).mem hp

theorem mapGet_mapDelete_ne (m : List (κ × α)) (k k' : κ) (h : k' ≠ k) :
    mapGet (mapDelete m k) k' = mapGet m k' := by
  induction m with
  | nil => simp [mapDelete]
  | cons p ps ih =>
    by_cases hp : p.1 = k
    · subst hp
      simp [mapDelete, mapGet, Ne.symm h]
    · by_cases hp' : p.1 = k'
      · simp [mapDelete, mapGet, hp, hp', h]
      · simp [mapDelete, mapGet, hp, hp', ih]

theorem mapGet_eq_some_mem (m : List (κ × α)) (k : κ) (v : α)
    (h : mapGet m k = some v) : (k, v) ∈ m := by
  induction m with
  | nil => simp [mapGet] at h
  | cons p ps ih =>
    by_cases hp : p.1 = k
    · simp only [mapGet, if_pos hp, Option.some.injEq] at h
      have : p = (k, v) := by
        obtain ⟨p1, p2⟩ := p
        simp only at hp h
        rw [hp, h]
      rw [this]
      exact List.mem_cons_self _ _
    · simp only [mapGet, if_neg hp] at h
      exact List.mem_cons_of_mem _ (ih h)

theorem mapGet_isSome_iff (m : List (κ × α)) (k : κ) :
    (mapGet m k).isSome = true ↔ k ∈ m.map Prod.fst := by
  induction m with
  | nil => simp [mapGet]
  | cons p ps ih =>
    by_cases hp : p.1 = k
    · simp [mapGet, hp]
    · simp [mapGet, hp, ih, Ne.symm hp]

theorem mapGet_mapDelete_self (m : List (κ × α)) (k : κ)
    (h : (m.map Prod.fst).Nodup) : mapGet (mapDelete m k) k = none := by
  induction m with
  | nil => simp [mapDelete, mapGet]
  | cons p ps ih =>
    simp only [List.map_cons, List.nodup_cons] at h
    by_cases hp : p.1 = k
    · subst hp
      simp only [mapDelete, if_pos rfl]
      cases hg : mapGet ps p.1 with
      | none => exact hg
      | some v =>
        exact absurd (List.mem_map_of_mem Prod.fst (mapGet_eq_some_mem ps p.1 v hg)) h.1
    · simp [mapDelete, mapGet, hp, ih h.2]

theorem mapDelete_eq_self (m : List (κ × α)) (k : κ)
    (h : k ∉ m.map Prod.fst) : mapDelete m k = m := by
  induction m with
  | nil => simp [mapDelete]
  | cons p ps ih =>
    simp only [List.map_cons, List.mem_cons, not_or] at h
    simp [mapDelete, Ne.symm h.1, ih h.2]

end MapLemmas

section SetLemmas

theorem mem_setAdd (s : List String) (x y : String) :
    y ∈ setAdd s x ↔ y ∈ s ∨ y = x := by
  by_cases h : x ∈ s
  · simp only [setAdd, if_pos h]
    constructor
    · exact Or.inl
    · rintro (hy | rfl) <;> [exact hy; exact h]
  · simp [setAdd, if_neg h]

theorem nodup_setAdd (s : List String) (x : String) (h : s.Nodup) :
    (setAdd s x).Nodup := by
  by_cases hx : x ∈ s
  · simpa [setAdd, hx] using h
  · have hd : s.Disjoint [x] := by
      intro a ha hax
      rw [List.mem_singleton] at hax
      exact hx (hax ▸ ha)
    simpa [setAdd, hx] using List.Nodup.append h (List.nodup_singleton x) hd

theorem mem_setDelete (s : List String) (x y : String) :
    y ∈ setDelete s x ↔ y ∈ s ∧ y ≠ x := by
  simp [setDelete, List.mem_filter]

theorem not_mem_setDelete_self (s : List String) (x : String) :
    x ∉ setDelete s x := by
  simp [mem_setDelete]

theorem nodup_setDelete (s : List String) (x : String) (h : s.Nodup) :
    (setDelete s x).Nodup :=
  h.filter _

theorem setDelete_eq_self (s : List String) (x : String) (h : x ∉ s) :
    setDelete s x = s := by
  apply List.filter_eq_self.mpr
  intro a ha
  simp only [decide_eq_true_eq]
  exact fun hax => h (hax ▸ ha)

theorem setDelete_head (s : List String) (w : String) (hnd : s.Nodup)
    (hh : s.head? = some w) : setDelete s w = s.tail := by
  cases s with
  | nil => simp at hh
  | cons a as =>
    simp only [List.head?_cons, Option.some.injEq] at hh
    subst hh
    simp only [List.nodup_cons] at hnd
    have h2 : setDelete as a = as := setDelete_eq_self as a hnd.1
    unfold setDelete at h2 ⊢
    simp [List.filter_cons, h2]
    exact fun b hb hba => hnd.1 (hba ▸ hb)

end SetLemmas

/-! ## Occupant lemmas -/

theorem occupantsOf_append (l1 l2 : List (Nat × Room)) :
    occupantsOf (l1 ++ l2) = occupantsOf l1 ++ occupantsOf l2 := by
  induction l1 with
  | nil => simp [occupantsOf]
  | cons p ps ih => simp [occupantsOf, ih]

theorem mem_occupantsOf (rs : List (Nat × Room)) (x : String) :
    x ∈ occupantsOf rs ↔ ∃ p, p ∈ rs ∧ (p.2.user1 = x ∨ p.2.user2 = x) := by
  induction rs with
  | nil => simp [occupantsOf]
  | cons p ps ih =>
    simp only [occupantsOf, List.mem_cons, ih]
    constructor
    · rintro (rfl | rfl | ⟨q, hq, hx⟩)
      · exact ⟨p, Or.inl rfl, Or.inl rfl⟩
      · exact ⟨p, Or.inl rfl, Or.inr rfl⟩
      · exact ⟨q, Or.inr hq, hx⟩
    · rintro ⟨q, (rfl | hq), hx⟩
      · rcases hx with h | h
        · exact Or.inl h.symm
        · exact Or.inr (Or.inl h.symm)
      · exact Or.inr (Or.inr ⟨q, hq, hx⟩)

theorem occupantsOf_sublist {l1 l2 : List (Nat × Room)} (h : l1.Sublist l2) :
    (occupantsOf l1).Sublist (occupantsOf l2) := by
  induction h with
  | slnil => simp [occupantsOf]
  | cons p _ ih =>
    exact ih.trans ((List.sublist_cons_self _ _).trans (List.sublist_cons_self _ _))
  | cons₂ p _ ih =>
    exact (ih.cons₂ _).cons₂ _

theorem any_roomHas_iff (rs : List (Nat × Room)) (x : String) :
    (rs.any fun p => roomHas p.2 x) = true ↔ x ∈ occupantsOf rs := by
  simp [List.any_eq_true, roomHas, mem_occupantsOf]

/-- A numeric bound on the room keys keeps a fresh key out of the map. -/
theorem not_mem_keys_of_lt (rs : List (Nat × Room)) (n : Nat)
    (hf : ∀ p ∈ rs, p.1 < n) : n ∉ rs.map Prod.fst := by
  intro hmem
  rcases List.mem_map.mp hmem with ⟨p, hp, hfst⟩
  exact absurd (hfst ▸ hf p hp) (lt_irrefl n)

/-- When the concatenated occupant list is duplicate-free, deleting the room
that `find?` located removes every room containing `x`. -/
theorem no_room_after_delete (rs : List (Nat × Room)) (x : String) (p : Nat × Room)
    (hocc : (occupantsOf rs).Nodup)
    (hkeys : (rs.map Prod.fst).Nodup)
    (hfind : rs.find? (fun q => roomHas q.2 x) = some p) :
    ∀ q ∈ mapDelete rs p.1, roomHas q.2 x = false := by
  induction rs with
  | nil => simp [List.find?] at hfind
  | cons r rest ih =>
    simp only [occupantsOf, List.nodup_cons, List.mem_cons] at hocc
    simp only [List.map_cons, List.nodup_cons] at hkeys
    by_cases hr : roomHas r.2 x = true
    · simp only [List.find?, hr, Option.some.injEq] at hfind
      subst hfind
      intro q hq
      have hq' : q ∈ rest := by simpa [mapDelete] using hq
      have hx : x ∉ occupantsOf rest := by
        simp only [roomHas, decide_eq_true_eq] at hr
        rcases hr with h1 | h2
        · exact fun hc => hocc.1 (Or.inr (h1 ▸ hc))
        · exact fun hc => hocc.2.1 (h2 ▸ hc)
      by_contra hcon
      rw [Bool.not_eq_false] at hcon
      simp only [roomHas, decide_eq_true_eq] at hcon
      exact hx ((mem_occupantsOf rest x).mpr ⟨q, hq', hcon⟩)
    · rw [Bool.not_eq_true] at hr
      simp only [List.find?, hr] at hfind
      have hp : p ∈ rest := List.mem_of_find?_eq_some hfind
      have hkey : ¬r.1 = p.1 := by
        intro he
        exact hkeys.1 (he ▸ List.mem_map_of_mem Prod.fst hp)
      intro q hq
      simp only [mapDelete, if_neg hkey] at hq
      rcases List.mem_cons.mp hq with rfl | hq'
      · exact hr
      · exact ih hocc.2.2 hkeys.2 hfind q hq'

/-- Locating a room by key or by occupant search agrees when the occupant
lists are duplicate-free: `find?` returns exactly the room containing `x`. -/
theorem find?_room_of_mem (rs : List (Nat × Room)) (x : String)
    (rid : Nat) (room : Room)
    (hocc : (occupantsOf rs).Nodup)
    (hget : mapGet rs rid = some room)
    (hhas : roomHas room x = true) :
    rs.find? (fun q => roomHas q.2 x) = some (rid, room) := by
  induction rs with
  | nil => simp [mapGet] at hget
  | cons r rest ih =>
    simp only [occupantsOf, List.nodup_cons] at hocc
    by_cases hr1 : r.1 = rid
    · rw [mapGet, if_pos hr1] at hget
      have hr2 : r.2 = room := by injection hget
      have hfind : r = (rid, room) := by
        obtain ⟨a, b⟩ := r
        simp only at hr1 hr2
        rw [hr1, hr2]
      have hhas' : roomHas r.2 x = true := by rw [hfind]; exact hhas
      simp only [List.find?, hhas', hfind, hhas]
    · rw [mapGet, if_neg hr1] at hget
      have hmem : (rid, room) ∈ rest := mapGet_eq_some_mem rest rid room hget
      have hxrest : x ∈ occupantsOf rest := by
        rw [mem_occupantsOf]
        refine ⟨(rid, room), hmem, ?_⟩
        simpa [roomHas] using hhas
      have hr : roomHas r.2 x = false := by
        rw [← Bool.not_eq_true]
        simp only [roomHas, decide_eq_true_eq]
        rintro (h1 | h2)
        · exact hocc.1 (List.mem_cons.mpr (Or.inr (h1 ▸ hxrest)))
        · exact hocc.2.1 (h2 ▸ hxrest)
      simp only [List.find?, hr]
      exact ih hocc.2.2 hget

theorem inv_init : Inv initState := by
  constructor <;> simp [initState, occupantsOf]

/-! ## Invariant preservation -/

theorem inv_register (s : ServerState) (sid sess : String) (now : Nat) (h : Inv s) :
    Inv (registerUser s sid sess now).1 := by
  refine ⟨h.occ_nodup, h.waiting_nodup, h.waiting_disjoint, ?_, ?_, ?_,
    h.rooms_fresh, h.rooms_keys_nodup, ?_⟩
  · intro x hx
    by_cases hxs : x = sid
    · subst hxs
      simp [registerUser, mapGet_mapSet_self]
    · simp only [registerUser]
      rw [mapGet_mapSet_ne _ _ _ _ hxs]
      exact h.waiting_registered x hx
  · intro x hx
    by_cases hxs : x = sid
    · subst hxs
      simp [registerUser, mapGet_mapSet_self]
    · simp only [registerUser]
      rw [mapGet_mapSet_ne _ _ _ _ hxs]
      exact h.occ_registered x hx
  · intro p hp
    simp only [registerUser] at hp
    rcases mem_mapSet _ _ _ p hp with hmem | rfl
    · exact h.users_consistent p hmem
    · rfl
  · simp only [registerUser]
    by_cases hmem : sid ∈ s.activeUsers.map Prod.fst
    · rw [keys_mapSet_of_mem _ _ _ hmem]
      exact h.users_keys_nodup
    · rw [mapSet_eq_append _ _ _ hmem, List.map_append]
      refine List.Nodup.append h.users_keys_nodup (by simp) ?_
      intro a ha hax
      simp only [List.map_cons, List.map_nil, List.mem_singleton] at hax
      exact hmem (hax ▸ ha)

/-- Adding a registered, room-free session to the waiting pool keeps `Inv`. -/
theorem inv_addWaiting (s : ServerState) (sid : String) (h : Inv s)
    (hreg : (mapGet s.activeUsers sid).isSome = true)
    (hnr : sid ∉ occupantsOf s.activeRooms) :
    Inv { s with waitingUsers := setAdd s.waitingUsers sid } := by
  refine ⟨h.occ_nodup, nodup_setAdd _ _ h.waiting_nodup, ?_, ?_,
    h.occ_registered, h.users_consistent, h.rooms_fresh,
    h.rooms_keys_nodup, h.users_keys_nodup⟩
  · intro x hx
    rcases (mem_setAdd _ _ _).mp hx with hx' | rfl
    · exact h.waiting_disjoint x hx'
    · exact hnr
  · intro x hx
    rcases (mem_setAdd _ _ _).mp hx with hx' | rfl
    · exact h.waiting_registered x hx'
    · exact hreg

/-- Deleting from the waiting pool keeps `Inv`. -/
theorem inv_delWaiting (s : ServerState) (w : String) (h : Inv s) :
    Inv { s with waitingUsers := setDelete s.waitingUsers w } := by
  refine ⟨h.occ_nodup, nodup_setDelete _ _ h.waiting_nodup, ?_, ?_,
    h.occ_registered, h.users_consistent, h.rooms_fresh,
    h.rooms_keys_nodup, h.users_keys_nodup⟩
  · intro x hx
    exact h.waiting_disjoint x ((mem_setDelete _ _ _).mp hx).1
  · intro x hx
    exact h.waiting_registered x ((mem_setDelete _ _ _).mp hx).1

/-- The atomic pop-and-pair transition of `find-match` keeps `Inv`. -/
theorem inv_pair (s : ServerState) (w sid : String) (u1 u2 : UserInfo) (now : Nat)
    (h : Inv s)
    (hw : w ∈ s.waitingUsers) (hne : w ≠ sid)
    (hnr : sid ∉ occupantsOf s.activeRooms)
    (hnsw : sid ∉ s.waitingUsers)
    (hu1 : mapGet s.activeUsers w = some u1)
    (hu2 : mapGet s.activeUsers sid = some u2) :
    Inv { s with
          waitingUsers := setDelete s.waitingUsers w,
          activeRooms := mapSet s.activeRooms s.nextRoomId
            ⟨u1.socketId, u2.socketId, now⟩,
          nextRoomId := s.nextRoomId + 1 } := by
  have hkey : s.nextRoomId ∉ s.activeRooms.map Prod.fst :=
    not_mem_keys_of_lt _ _ h.rooms_fresh
  have happ : mapSet s.activeRooms s.nextRoomId ⟨u1.socketId, u2.socketId, now⟩ =
      s.activeRooms ++ [(s.nextRoomId, ⟨u1.socketId, u2.socketId, now⟩)] :=
    mapSet_eq_append _ _ _ hkey
  have hs1 : u1.socketId = w := h.users_consistent _ (mapGet_eq_some_mem _ _ _ hu1)
  have hs2 : u2.socketId = sid := h.users_consistent _ (mapGet_eq_some_mem _ _ _ hu2)
  have hocc : occupantsOf (mapSet s.activeRooms s.nextRoomId
      ⟨u1.socketId, u2.socketId, now⟩) = occupantsOf s.activeRooms ++ [w, sid] := by
    rw [happ, occupantsOf_append, hs1, hs2]
    rfl
  have hwocc : w ∉ occupantsOf s.activeRooms := h.waiting_disjoint w hw
  refine ⟨?_, nodup_setDelete _ _ h.waiting_nodup, ?_, ?_, ?_,
    h.users_consistent, ?_, ?_, h.users_keys_nodup⟩
  · show (occupantsOf (mapSet s.activeRooms _ _)).Nodup
    rw [hocc]
    refine List.Nodup.append h.occ_nodup (by simp [hne]) ?_
    intro a ha hmem
    rcases List.mem_cons.mp hmem with rfl | hmem'
    · exact hwocc ha
    · rw [List.mem_singleton] at hmem'
      exact hnr (hmem' ▸ ha)
  · intro x hx
    rcases (mem_setDelete _ _ _).mp hx with ⟨hx', hxw⟩
    rw [hocc]
    intro hmem
    rcases List.mem_append.mp hmem with hmem' | hmem'
    · exact h.waiting_disjoint x hx' hmem'
    · rcases List.mem_cons.mp hmem' with rfl | hmem''
      · exact hxw rfl
      · rw [List.mem_singleton] at hmem''
        exact hnsw (hmem'' ▸ hx')
  · intro x hx
    exact h.waiting_registered x ((mem_setDelete _ _ _).mp hx).1
  · intro x hx
    rw [hocc] at hx
    rcases List.mem_append.mp hx with hx' | hx'
    · exact h.occ_registered x hx'
    · rcases List.mem_cons.mp hx' with rfl | hx''
      · simp [hu1]
      · rw [List.mem_singleton] at hx''
        subst hx''
        simp [hu2]
  · intro p hp
    rw [happ] at hp
    rcases List.mem_append.mp hp with hp' | hp'
    · exact Nat.lt_succ_of_lt (h.rooms_fresh p hp')
    · rw [List.mem_singleton] at hp'
      subst hp'
      exact Nat.lt_succ_self _
  · show ((mapSet s.activeRooms _ _).map Prod.fst).Nodup
    rw [happ, List.map_append]
    refine List.Nodup.append h.rooms_keys_nodup (by simp) ?_
    intro a ha hmem
    simp only [List.map_cons, List.map_nil, List.mem_singleton] at hmem
    exact hkey (hmem ▸ ha)

/-- Membership of the head of a list. -/
theorem mem_of_head? (l : List String) (w : String) (hh : l.head? = some w) :
    w ∈ l := by
  cases l with
  | nil => simp at hh
  | cons a as =>
    simp only [List.head?_cons, Option.some.injEq] at hh
    rw [hh]
    exact List.mem_cons_self _ _

theorem inv_findMatch (s : ServerState) (sid : String) (now : Nat) (h : Inv s) :
    Inv (findMatch s sid now).1 := by
  unfold findMatch
  split
  · exact h
  · rename_i u hreg
    split
    · exact h
    · rename_i hroom
      have hnr : sid ∉ occupantsOf s.activeRooms := by
        rw [← any_roomHas_iff]
        simpa using hroom
      split
      · exact h
      · rename_i hwait
        split
        · rename_i w hhead
          split
          · exact inv_addWaiting s sid h (by simp [hreg]) hnr
          · rename_i hws
            split
            · rename_i u1 u2 hu1 hu2
              exact inv_pair s w sid u1 u2 now h (mem_of_head? _ _ hhead)
                hws hnr hwait hu1 hu2
            · exact inv_delWaiting s w h
        · exact inv_addWaiting s sid h (by simp [hreg]) hnr

theorem inv_leaveRoom (s : ServerState) (sid : String) (rid : Nat) (h : Inv s) :
    Inv (leaveRoom s sid rid).1 := by
  unfold leaveRoom
  cases hget : mapGet s.activeRooms rid with
  | none => exact h
  | some room =>
    have hsub := mapDelete_sublist s.activeRooms rid
    have hoccsub := occupantsOf_sublist hsub
    refine ⟨h.occ_nodup.sublist hoccsub, h.waiting_nodup, ?_, h.waiting_registered,
      ?_, h.users_consistent, ?_, ?_, h.users_keys_nodup⟩
    · intro x hx hmem
      exact h.waiting_disjoint x hx (hoccsub.subset hmem)
    · intro x hx
      exact h.occ_registered x (hoccsub.subset hx)
    · intro p hp
      exact h.rooms_fresh p (hsub.subset hp)
    · exact h.rooms_keys_nodup.sublist (hsub.map Prod.fst)

theorem inv_disconnect (s : ServerState) (sid : String) (h : Inv s) :
    Inv (disconnect s sid).1 := by
  unfold disconnect
  cases hfind : s.activeRooms.find? (fun p => roomHas p.2 sid) with
  | none =>
    have hnocc : sid ∉ occupantsOf s.activeRooms := by
      intro hmem
      rcases (mem_occupantsOf _ _).mp hmem with ⟨p, hp, hx⟩
      have := List.find?_eq_none.mp hfind p hp
      simp [roomHas] at this
      exact absurd hx (by tauto)
    refine ⟨h.occ_nodup, nodup_setDelete _ _ h.waiting_nodup, ?_, ?_, ?_,
      ?_, h.rooms_fresh, h.rooms_keys_nodup, ?_⟩
    · intro x hx
      exact h.waiting_disjoint x ((mem_setDelete _ _ _).mp hx).1
    · intro x hx
      rcases (mem_setDelete _ _ _).mp hx with ⟨hx', hxs⟩
      rw [mapGet_mapDelete_ne _ _ _ hxs]
      exact h.waiting_registered x hx'
    · intro x hx
      have hxs : x ≠ sid := fun he => hnocc (he ▸ hx)
      rw [mapGet_mapDelete_ne _ _ _ hxs]
      exact h.occ_registered x hx
    · intro p hp
      exact h.users_consistent p (mem_mapDelete_subset _ _ p hp)
    · exact h.users_keys_nodup.sublist ((mapDelete_sublist _ _).map Prod.fst)
  | some p =>
    have hsub := mapDelete_sublist s.activeRooms p.1
    have hoccsub := occupantsOf_sublist hsub
    have hnoroom := no_room_after_delete s.activeRooms sid p
      h.occ_nodup h.rooms_keys_nodup hfind
    have hnocc : sid ∉ occupantsOf (mapDelete s.activeRooms p.1) := by
      intro hmem
      rcases (mem_occupantsOf _ _).mp hmem with ⟨q, hq, hx⟩
      have := hnoroom q hq
      simp only [roomHas, decide_eq_false_iff_not] at this
      exact this hx
    refine ⟨h.occ_nodup.sublist hoccsub, nodup_setDelete _ _ h.waiting_nodup,
      ?_, ?_, ?_, ?_, ?_, h.rooms_keys_nodup.sublist (hsub.map Prod.fst), ?_⟩
    · intro x hx hmem
      exact h.waiting_disjoint x ((mem_setDelete _ _ _).mp hx).1 (hoccsub.subset hmem)
    · intro x hx
      rcases (mem_setDelete _ _ _).mp hx with ⟨hx', hxs⟩
      rw [mapGet_mapDelete_ne _ _ _ hxs]
      exact h.waiting_registered x hx'
    · intro x hx
      have hxs : x ≠ sid := fun he => hnocc (he ▸ hx)
      rw [mapGet_mapDelete_ne _ _ _ hxs]
      exact h.occ_registered x (hoccsub.subset hx)
    · intro q hq
      exact h.users_consistent q (mem_mapDelete_subset _ _ q hq)
    · intro q hq
      exact h.rooms_fresh q (hsub.subset hq)
    · exact h.users_keys_nodup.sublist ((mapDelete_sublist _ _).map Prod.fst)

theorem inv_signaling (s : ServerState) (sid t pl : String) (h : Inv s) :
    Inv (signalingMessage s sid t pl).1 := by
  unfold signalingMessage
  split <;> exact h

theorem inv_step (s : ServerState) (op : Op) (h : Inv s) : Inv (step s op).1 := by
  cases op with
  | register sid sess now => exact inv_register s sid sess now h
  | findMatch sid now => exact inv_findMatch s sid now h
  | signaling sid t pl => exact inv_signaling s sid t pl h
  | leaveRoom sid rid => exact inv_leaveRoom s sid rid h
  | disconnect sid => exact inv_disconnect s sid h
  | getStats sid => exact h

theorem inv_run (ops : List Op) : Inv (run ops) := by
  suffices hgen : ∀ s, Inv s → Inv (ops.foldl (fun s op => (step s op).1) s) by
    exact hgen initState inv_init
  induction ops with
  | nil => intro s hs; exact hs
  | cons op rest ih =>
    intro s hs
    exact ih _ (inv_step s op hs)

/-! ## Claim theorems -/

/-- C1: for every sequence of socket operations (find-match, leave-room,
disconnect — and also register, relay and stats, which only strengthens the
statement) the reachable server state satisfies the membership invariants:
the concatenation of all rooms' participant pairs is duplicate-free (so no
sessionId occurs in more than one room, no two rooms share a participant,
and the two slots of one room are distinct), and no sessionId is
simultaneously in the waiting pool and in a room. -/
theorem c1_membership_invariant (ops : List Op) :
    (occupantsOf (run ops).activeRooms).Nodup ∧
    ∀ x ∈ (run ops).waitingUsers, x ∉ occupantsOf (run ops).activeRooms :=
  ⟨(inv_run ops).occ_nodup, (inv_run ops).waiting_disjoint⟩

/-- C2: when a registered session `r` that is neither waiting nor in a room
calls find-match and the pool is non-empty, the head of the pool — the
earliest-added waiting session, since `Set.add` appends — is selected, both
parties end up out of the pool, a room containing exactly the two of them
is created, and the two `match-found` events carry the same fresh roomId
and each party's peerId is the other party's sessionId. -/
theorem c2_fifo_pairing (s : ServerState) (r w : String) (now : Nat)
    (hinv : Inv s)
    (hreg : (mapGet s.activeUsers r).isSome = true)
    (hnw : r ∉ s.waitingUsers)
    (hnr : r ∉ occupantsOf s.activeRooms)
    (hw : s.waitingUsers.head? = some w) :
    ∃ u1 u2 : UserInfo,
      mapGet s.activeUsers w = some u1 ∧
      mapGet s.activeUsers r = some u2 ∧
      w ≠ r ∧
      (findMatch s r now).1.waitingUsers = s.waitingUsers.tail ∧
      r ∉ (findMatch s r now).1.waitingUsers ∧
      w ∉ (findMatch s r now).1.waitingUsers ∧
      mapGet (findMatch s r now).1.activeRooms s.nextRoomId = some ⟨w, r, now⟩ ∧
      (findMatch s r now).2 =
        [ServerEvent.matchFound r s.nextRoomId w u1.session,
         ServerEvent.matchFound w s.nextRoomId r u2.session] := by
  obtain ⟨u2, hu2⟩ := Option.isSome_iff_exists.mp hreg
  have hwmem : w ∈ s.waitingUsers := mem_of_head? _ _ hw
  obtain ⟨u1, hu1⟩ :=
    Option.isSome_iff_exists.mp (hinv.waiting_registered w hwmem)
  have hwr : w ≠ r := fun he => hnw (he ▸ hwmem)
  have hany : (s.activeRooms.any fun p => roomHas p.2 r) = false := by
    cases hb : (s.activeRooms.any fun p => roomHas p.2 r) with
    | false => rfl
    | true => exact absurd ((any_roomHas_iff _ _).mp hb) hnr
  have hred : findMatch s r now =
      ({ s with
          waitingUsers := setDelete s.waitingUsers w,
          activeRooms := mapSet s.activeRooms s.nextRoomId
            ⟨u1.socketId, u2.socketId, now⟩,
          nextRoomId := s.nextRoomId + 1 },
       [ServerEvent.matchFound r s.nextRoomId w u1.session,
        ServerEvent.matchFound w s.nextRoomId r u2.session]) := by
    simp only [findMatch, hu2, hany, hw, hu1, hnw, hwr]
    simp
  have hs1 : u1.socketId = w :=
    hinv.users_consistent _ (mapGet_eq_some_mem _ _ _ hu1)
  have hs2 : u2.socketId = r :=
    hinv.users_consistent _ (mapGet_eq_some_mem _ _ _ hu2)
  refine ⟨u1, u2, hu1, hu2, hwr, ?_, ?_, ?_, ?_, ?_⟩
  · simp only [hred]
    exact setDelete_head _ _ hinv.waiting_nodup hw
  · simp only [hred]
    intro hc
    exact hnw ((mem_setDelete _ _ _).mp hc).1
  · simp only [hred]
    exact not_mem_setDelete_self _ _
  · simp only [hred]
    rw [mapGet_mapSet_self, hs1, hs2]
  · simp only [hred]

/-- C2 witness: the spec scenario — X registers and searches (entering the
pool), Y registers and searches; X (the earliest-added waiting session) is
selected and both receive `match-found` with the same roomId and each
other's id. -/
theorem c2_fifo_pairing_witness :
    (Inv (run [Op.register "x" "px" 0, Op.findMatch "x" 1,
        Op.register "y" "py" 2]) ∧
     (mapGet (run [Op.register "x" "px" 0, Op.findMatch "x" 1,
        Op.register "y" "py" 2]).activeUsers "y").isSome = true ∧
     "y" ∉ (run [Op.register "x" "px" 0, Op.findMatch "x" 1,
        Op.register "y" "py" 2]).waitingUsers ∧
     "y" ∉ occupantsOf (run [Op.register "x" "px" 0, Op.findMatch "x" 1,
        Op.register "y" "py" 2]).activeRooms ∧
     (run [Op.register "x" "px" 0, Op.findMatch "x" 1,
        Op.register "y" "py" 2]).waitingUsers.head? = some "x") ∧
    (∃ u1 u2 : UserInfo,
      mapGet (run [Op.register "x" "px" 0, Op.findMatch "x" 1,
        Op.register "y" "py" 2]).activeUsers "x" = some u1 ∧
      mapGet (run [Op.register "x" "px" 0, Op.findMatch "x" 1,
        Op.register "y" "py" 2]).activeUsers "y" = some u2 ∧
      "x" ≠ "y" ∧
      (findMatch (run [Op.register "x" "px" 0, Op.findMatch "x" 1,
        Op.register "y" "py" 2]) "y" 3).1.waitingUsers =
        (run [Op.register "x" "px" 0, Op.findMatch "x" 1,
        Op.register "y" "py" 2]).waitingUsers.tail ∧
      "y" ∉ (findMatch (run [Op.register "x" "px" 0, Op.findMatch "x" 1,
        Op.register "y" "py" 2]) "y" 3).1.waitingUsers ∧
      "x" ∉ (findMatch (run [Op.register "x" "px" 0, Op.findMatch "x" 1,
        Op.register "y" "py" 2]) "y" 3).1.waitingUsers ∧
      mapGet (findMatch (run [Op.register "x" "px" 0, Op.findMatch "x" 1,
        Op.register "y" "py" 2]) "y" 3).1.activeRooms
        (run [Op.register "x" "px" 0, Op.findMatch "x" 1,
        Op.register "y" "py" 2]).nextRoomId = some ⟨"x", "y", 3⟩ ∧
      (findMatch (run [Op.register "x" "px" 0, Op.findMatch "x" 1,
        Op.register "y" "py" 2]) "y" 3).2 =
        [ServerEvent.matchFound "y" (run [Op.register "x" "px" 0,
            Op.findMatch "x" 1, Op.register "y" "py" 2]).nextRoomId "x" u1.session,
         ServerEvent.matchFound "x" (run [Op.register "x" "px" 0,
            Op.findMatch "x" 1, Op.register "y" "py" 2]).nextRoomId "y" u2.session]) :=
  ⟨⟨inv_run _, by decide, by decide, by decide, by decide⟩,
   c2_fifo_pairing _ "y" "x" 3 (inv_run _) (by decide) (by decide)
     (by decide) (by decide)⟩

/-- C4: a find-match request from a session that is already waiting or
already in a room is a strict no-op: the state (hence the waiting-pool
size and room count) is unchanged and no event is emitted. -/
theorem c4_duplicate_find_match_noop (s : ServerState) (r : String) (now : Nat)
    (hinv : Inv s)
    (hcase : r ∈ s.waitingUsers ∨ r ∈ occupantsOf s.activeRooms) :
    findMatch s r now = (s, []) := by
  obtain ⟨u, hu⟩ := Option.isSome_iff_exists.mp
    (hcase.elim (hinv.waiting_registered r) (hinv.occ_registered r))
  rcases hcase with hwmem | ho
  · have hany : (s.activeRooms.any fun p => roomHas p.2 r) = false := by
      cases hb : (s.activeRooms.any fun p => roomHas p.2 r) with
      | false => rfl
      | true =>
        exact absurd (hinv.waiting_disjoint r hwmem) (by
          simp [(any_roomHas_iff _ _).mp hb])
    simp only [findMatch, hu, hany, hwmem]
    simp
  · have hany : (s.activeRooms.any fun p => roomHas p.2 r) = true :=
      (any_roomHas_iff _ _).mpr ho
    simp only [findMatch, hu, hany]
    simp

/-- C4 witness: a session already in the pool repeats find-match; the state
is untouched and nothing is emitted. -/
theorem c4_duplicate_find_match_noop_witness :
    (Inv (run [Op.register "a" "pa" 0, Op.findMatch "a" 1]) ∧
     "a" ∈ (run [Op.register "a" "pa" 0, Op.findMatch "a" 1]).waitingUsers) ∧
    findMatch (run [Op.register "a" "pa" 0, Op.findMatch "a" 1]) "a" 5 =
      (run [Op.register "a" "pa" 0, Op.findMatch "a" 1], []) :=
  ⟨⟨inv_run _, by decide⟩,
   c4_duplicate_find_match_noop _ "a" 5 (inv_run _) (Or.inl (by decide))⟩

/-- C7: when a participant `r` of an active room disconnects, the other
participant receives exactly one `user-left` event, the room is removed
from the registry, `r` is removed from the waiting pool and the session
registry, no room referencing `r` remains, and a second disconnect signal
for `r` is a strict no-op (no events, no state change). -/
theorem c7_disconnect_teardown (s : ServerState) (r : String) (rid : Nat)
    (room : Room) (hinv : Inv s)
    (hget : mapGet s.activeRooms rid = some room)
    (hmem : room.user1 = r ∨ room.user2 = r) :
    (disconnect s r).2 =
      [ServerEvent.userLeft (if room.user1 = r then room.user2 else room.user1) r] ∧
    mapGet (disconnect s r).1.activeRooms rid = none ∧
    (∀ q ∈ (disconnect s r).1.activeRooms, roomHas q.2 r = false) ∧
    r ∉ (disconnect s r).1.waitingUsers ∧
    mapGet (disconnect s r).1.activeUsers r = none ∧
    disconnect (disconnect s r).1 r = ((disconnect s r).1, []) := by
  have hhas : roomHas room r = true := by
    simp only [roomHas, decide_eq_true_eq]
    exact hmem
  have hfind : s.activeRooms.find? (fun q => roomHas q.2 r) = some (rid, room) :=
    find?_room_of_mem s.activeRooms r rid room hinv.occ_nodup hget hhas
  have hred : disconnect s r =
      ({ s with
          waitingUsers := setDelete s.waitingUsers r,
          activeRooms := mapDelete s.activeRooms rid,
          activeUsers := mapDelete s.activeUsers r },
       [ServerEvent.userLeft (if room.user1 = r then room.user2 else room.user1) r]) := by
    simp only [disconnect, hfind]
  have hnoroom : ∀ q ∈ mapDelete s.activeRooms rid, roomHas q.2 r = false :=
    no_room_after_delete s.activeRooms r (rid, room)
      hinv.occ_nodup hinv.rooms_keys_nodup hfind
  refine ⟨by simp only [hred], ?_, ?_, ?_, ?_, ?_⟩
  · simp only [hred]
    exact mapGet_mapDelete_self _ _ hinv.rooms_keys_nodup
  · simp only [hred]
    exact hnoroom
  · simp only [hred]
    exact not_mem_setDelete_self _ _
  · simp only [hred]
    exact mapGet_mapDelete_self _ _ hinv.users_keys_nodup
  · have hfind2 : (mapDelete s.activeRooms rid).find?
        (fun q => roomHas q.2 r) = none := by
      rw [List.find?_eq_none]
      intro q hq
      rw [hnoroom q hq]
      simp
    have h6a : setDelete (setDelete s.waitingUsers r) r =
        setDelete s.waitingUsers r :=
      setDelete_eq_self _ _ (not_mem_setDelete_self _ _)
    have h6b : mapDelete (mapDelete s.activeUsers r) r =
        mapDelete s.activeUsers r := by
      apply mapDelete_eq_self
      intro hc
      have := (mapGet_isSome_iff (mapDelete s.activeUsers r) r).mpr hc
      rw [mapGet_mapDelete_self _ _ hinv.users_keys_nodup] at this
      simp at this
    rw [hred]
    simp only [disconnect, hfind2, h6a, h6b]

/-- C7 witness: "a" and "b" are matched into room 0; "a" disconnects: "b"
gets exactly one `user-left`, the room and "a"'s registrations are gone,
and a second disconnect for "a" changes nothing. -/
theorem c7_disconnect_teardown_witness :
    (Inv (run [Op.register "a" "pa" 0, Op.register "b" "pb" 1,
        Op.findMatch "a" 2, Op.findMatch "b" 3]) ∧
     mapGet (run [Op.register "a" "pa" 0, Op.register "b" "pb" 1,
        Op.findMatch "a" 2, Op.findMatch "b" 3]).activeRooms 0 =
       some ⟨"a", "b", 3⟩ ∧
     ((⟨"a", "b", 3⟩ : Room).user1 = "a" ∨ (⟨"a", "b", 3⟩ : Room).user2 = "a")) ∧
    ((disconnect (run [Op.register "a" "pa" 0, Op.register "b" "pb" 1,
        Op.findMatch "a" 2, Op.findMatch "b" 3]) "a").2 =
      [ServerEvent.userLeft (if (⟨"a", "b", 3⟩ : Room).user1 = "a"
          then (⟨"a", "b", 3⟩ : Room).user2 else (⟨"a", "b", 3⟩ : Room).user1) "a"] ∧
     mapGet (disconnect (run [Op.register "a" "pa" 0, Op.register "b" "pb" 1,
        Op.findMatch "a" 2, Op.findMatch "b" 3]) "a").1.activeRooms 0 = none ∧
     (∀ q ∈ (disconnect (run [Op.register "a" "pa" 0, Op.register "b" "pb" 1,
        Op.findMatch "a" 2, Op.findMatch "b" 3]) "a").1.activeRooms,
        roomHas q.2 "a" = false) ∧
     "a" ∉ (disconnect (run [Op.register "a" "pa" 0, Op.register "b" "pb" 1,
        Op.findMatch "a" 2, Op.findMatch "b" 3]) "a").1.waitingUsers ∧
     mapGet (disconnect (run [Op.register "a" "pa" 0, Op.register "b" "pb" 1,
        Op.findMatch "a" 2, Op.findMatch "b" 3]) "a").1.activeUsers "a" = none ∧
     disconnect (disconnect (run [Op.register "a" "pa" 0, Op.register "b" "pb" 1,
        Op.findMatch "a" 2, Op.findMatch "b" 3]) "a").1 "a" =
       ((disconnect (run [Op.register "a" "pa" 0, Op.register "b" "pb" 1,
          Op.findMatch "a" 2, Op.findMatch "b" 3]) "a").1, [])) :=
  ⟨⟨inv_run _, by decide, Or.inl (by decide)⟩,
   c7_disconnect_teardown _ "a" 0 ⟨"a", "b", 3⟩ (inv_run _)
     (by decide) (Or.inl (by decide))⟩

/-- C3 counterexample: with "a" and "b" paired in a room, a
`signaling-message` from "a" whose type `"evil-type"` is NOT in the
allow-list is nevertheless forwarded to "a"'s room partner "b" — refuting
the claim that the relay drops such messages and never forwards them. -/
theorem c3_counterexample :
    "evil-type" ∉ allowedMessageTypes ∧
    (signalingMessage (run [Op.register "a" "pa" 0, Op.register "b" "pb" 1,
        Op.findMatch "a" 2, Op.findMatch "b" 3]) "a" "evil-type" "payload").2 =
      [ServerEvent.forwarded "b" "evil-type" "payload" "a"] := by
  constructor
  · decide
  · decide

/-- C3 (amended): the relay performs no message-type validation at all —
whenever the sender is in a room, a `signaling-message` of ANY type
(allow-listed or not) is forwarded verbatim to the room partner; the
allow-list of SecurityConfig is not consulted on the relay path. -/
theorem c3_relay_forwards_any_type (s : ServerState)
    (sid msgType payload : String) (p : Nat × Room)
    (hfind : s.activeRooms.find? (fun q => roomHas q.2 sid) = some p) :
    signalingMessage s sid msgType payload =
      (s, [ServerEvent.forwarded
            (if p.2.user1 = sid then p.2.user2 else p.2.user1)
            msgType payload sid]) := by
  simp only [signalingMessage, hfind]

/-- C3 amended witness: the concrete forwarding of `"evil-type"` above,
obtained by applying the amended theorem. -/
theorem c3_relay_forwards_any_type_witness :
    ((run [Op.register "a" "pa" 0, Op.register "b" "pb" 1, Op.findMatch "a" 2,
        Op.findMatch "b" 3]).activeRooms.find? (fun q => roomHas q.2 "a") =
      some (0, ⟨"a", "b", 3⟩)) ∧
    signalingMessage (run [Op.register "a" "pa" 0, Op.register "b" "pb" 1,
        Op.findMatch "a" 2, Op.findMatch "b" 3]) "a" "evil-type" "payload" =
      (run [Op.register "a" "pa" 0, Op.register "b" "pb" 1, Op.findMatch "a" 2,
        Op.findMatch "b" 3],
       [ServerEvent.forwarded
         (if (⟨"a", "b", 3⟩ : Room).user1 = "a" then (⟨"a", "b", 3⟩ : Room).user2
          else (⟨"a", "b", 3⟩ : Room).user1) "evil-type" "payload" "a"]) :=
  ⟨by decide,
   c3_relay_forwards_any_type _ "a" "evil-type" "payload" (0, ⟨"a", "b", 3⟩)
     (by decide)⟩

/-- C8 counterexample: registering connection "a" twice with different
session payloads silently REPLACES the stored Session (and emits
`registration-success` again, no `DuplicateRegistration` error) — refuting
the claim that a second registration either fails or leaves the stored
Session unchanged. -/
theorem c8_counterexample :
    mapGet (registerUser initState "a" "s1" 0).1.activeUsers "a" =
      some ⟨"s1", "a", 0⟩ ∧
    mapGet (registerUser (registerUser initState "a" "s1" 0).1
        "a" "s2" 5).1.activeUsers "a" = some ⟨"s2", "a", 5⟩ ∧
    some (⟨"s2", "a", 5⟩ : UserInfo) ≠ some (⟨"s1", "a", 0⟩ : UserInfo) ∧
    (registerUser (registerUser initState "a" "s1" 0).1 "a" "s2" 5).2 =
      [ServerEvent.registrationSuccess "a"] := by
  refine ⟨by decide, by decide, by decide, by decide⟩

/-- C8 (amended): `register-user` is last-write-wins — it unconditionally
stores the new Session under the connectionId, silently replacing any
previously stored one, and emits `registration-success` every time (it
never raises `DuplicateRegistration` and is not a no-op on repeats). -/
theorem c8_register_last_write_wins (s : ServerState) (sid sess : String)
    (now : Nat) :
    mapGet (registerUser s sid sess now).1.activeUsers sid =
      some ⟨sess, sid, now⟩ ∧
    (registerUser s sid sess now).2 = [ServerEvent.registrationSuccess sid] := by
  constructor
  · simp only [registerUser]
    exact mapGet_mapSet_self _ _ _
  · rfl

/-- C5: for distinct session identifiers the role decision is deterministic
and symmetric: a side self-selects as offerer exactly when its own id is
lexicographically smaller than the peer's, and of the two sides evaluating
the decision independently exactly one self-selects as offerer. -/
theorem c5_role_tiebreak (a b : String) (h : a ≠ b) :
    (shouldCreateOffer (some a) b = true ↔ a < b) ∧
    shouldCreateOffer (some a) b ≠ shouldCreateOffer (some b) a := by
  refine ⟨by simp [shouldCreateOffer], ?_⟩
  rcases lt_trichotomy a b with hlt | heq | hgt
  · have h2 : ¬b < a := asymm hlt
    simp [shouldCreateOffer, hlt, h2]
  · exact absurd heq h
  · have h2 : ¬a < b := asymm hgt
    simp [shouldCreateOffer, hgt, h2]

/-- C5 witness: the spec's concrete ids "A" and "B". -/
theorem c5_role_tiebreak_witness :
    ("A" : String) ≠ "B" ∧
    ((shouldCreateOffer (some "A") "B" = true ↔ ("A" : String) < "B") ∧
     shouldCreateOffer (some "A") "B" ≠ shouldCreateOffer (some "B") "A") :=
  ⟨by decide, c5_role_tiebreak "A" "B" (by decide)⟩

/-- C10: when the client's own socket id is still null (not yet learned
from the server), `handleMatchFound` takes the waiting/answerer side for
every peer id — it never creates an offer. -/
theorem c10_null_socket_id_waits (peerId : String) :
    handleMatchFound none peerId = NegotiationSide.answerer peerId := by
  simp [handleMatchFound, shouldCreateOffer]

/-- C6: delivering the same answer message twice performs exactly one
`setRemoteDescription` call, and the second application of `handleAnswer`
to the same input leaves the state exactly as after the first (the repeat
is dropped: its fingerprint is already recorded, and the connection has
left `have-local-offer`). -/
theorem c6_answer_dedup (svc : WebRTCSvc) (m : AnswerMsg) (pc : PeerConnection)
    (hconn : svc.isConnected = false)
    (hpc : svc.peerConnection = some pc)
    (hstate : pc.signalingState = PcSignalingState.haveLocalOffer)
    (htype : m.answer.type ≠ "")
    (hsdp : m.answer.sdp ≠ "")
    (hkey : svc.lastProcessedAnswerKey ≠ some (answerFingerprint m)) :
    handleAnswer (handleAnswer svc m) m = handleAnswer svc m ∧
    remoteDescCount (handleAnswer (handleAnswer svc m) m) =
      remoteDescCount svc + 1 := by
  have hred : handleAnswer svc m =
      { isConnected := svc.isConnected,
        lastProcessedAnswerKey := some (answerFingerprint m),
        peerConnection := some (setRemoteDescription pc m.answer) } := by
    simp [handleAnswer, hconn, hpc, hstate, htype, hsdp, hkey]
  have hred2 : handleAnswer (handleAnswer svc m) m = handleAnswer svc m := by
    rw [hred]
    simp [handleAnswer, hconn, setRemoteDescription]
  refine ⟨hred2, ?_⟩
  rw [hred2, hred]
  simp [remoteDescCount, setRemoteDescription, hpc]

/-- C6 witness: a fresh service that has sent an offer receives the same
answer twice; exactly one `setRemoteDescription` is recorded. -/
theorem c6_answer_dedup_witness :
    ((⟨false, none, some ⟨PcSignalingState.haveLocalOffer, []⟩⟩ :
        WebRTCSvc).isConnected = false ∧
     (⟨false, none, some ⟨PcSignalingState.haveLocalOffer, []⟩⟩ :
        WebRTCSvc).peerConnection = some ⟨PcSignalingState.haveLocalOffer, []⟩ ∧
     (⟨PcSignalingState.haveLocalOffer, []⟩ :
        PeerConnection).signalingState = PcSignalingState.haveLocalOffer ∧
     (⟨⟨"answer", "v=0 fake-sdp"⟩, "peer1"⟩ : AnswerMsg).answer.type ≠ "" ∧
     (⟨⟨"answer", "v=0 fake-sdp"⟩, "peer1"⟩ : AnswerMsg).answer.sdp ≠ "" ∧
     (⟨false, none, some ⟨PcSignalingState.haveLocalOffer, []⟩⟩ :
        WebRTCSvc).lastProcessedAnswerKey ≠
       some (answerFingerprint ⟨⟨"answer", "v=0 fake-sdp"⟩, "peer1"⟩)) ∧
    (handleAnswer (handleAnswer
        ⟨false, none, some ⟨PcSignalingState.haveLocalOffer, []⟩⟩
        ⟨⟨"answer", "v=0 fake-sdp"⟩, "peer1"⟩) ⟨⟨"answer", "v=0 fake-sdp"⟩, "peer1"⟩ =
      handleAnswer ⟨false, none, some ⟨PcSignalingState.haveLocalOffer, []⟩⟩
        ⟨⟨"answer", "v=0 fake-sdp"⟩, "peer1"⟩ ∧
     remoteDescCount (handleAnswer (handleAnswer
        ⟨false, none, some ⟨PcSignalingState.haveLocalOffer, []⟩⟩
        ⟨⟨"answer", "v=0 fake-sdp"⟩, "peer1"⟩) ⟨⟨"answer", "v=0 fake-sdp"⟩, "peer1"⟩) =
      remoteDescCount (⟨false, none, some ⟨PcSignalingState.haveLocalOffer, []⟩⟩ :
        WebRTCSvc) + 1) :=
  ⟨⟨by decide, by decide, by decide, by decide, by decide, by decide⟩,
   c6_answer_dedup ⟨false, none, some ⟨PcSignalingState.haveLocalOffer, []⟩⟩
     ⟨⟨"answer", "v=0 fake-sdp"⟩, "peer1"⟩ ⟨PcSignalingState.haveLocalOffer, []⟩
     (by decide) (by decide) (by decide) (by decide) (by decide) (by decide)⟩

/-- C9 counterexample: the limiter's window is anchored, not rolling.
Schedule: one message at t=0 (anchoring the window), nine at t=900, ten at
t=1001 (which re-anchors, since 1001-0 > 1000).  All twenty sends are
delivered, yet the nineteen messages at t ∈ [900, 1001] lie inside a
rolling window of width 101 ms ≤ 1 s and exceed the limit of 10 — refuting
"when a sender exceeds 10 messages within a 1-second rolling window ...
every excess message is dropped". -/
theorem c9_counterexample :
    (runSend ⟨0, 0⟩ ([0] ++ List.replicate 9 900 ++ List.replicate 10 1001)).1 =
      List.replicate 20 true ∧
    (([0] ++ List.replicate 9 900 ++ List.replicate 10 1001).filter
      (fun t => decide (900 ≤ t) && decide (t ≤ 1001))).length = 19 ∧
    1001 - 900 ≤ rateLimitWindow ∧
    19 > maxMessagesPerWindow := by
  refine ⟨by decide, by decide, by decide, by decide⟩

/-- C9 (amended): the limiter uses a fixed window anchored at
`lastMessageTime`: as long as no send is more than `rateLimitWindow` ms
after the anchor, the window never re-anchors, and with `c` messages
already counted the i-th further send is delivered exactly when it is
within the first `maxMessagesPerWindow` messages of the window; the excess
is dropped on the spot (nothing is queued — the final state records only
the counter).  Across a re-anchoring boundary more than
`maxMessagesPerWindow` messages can be delivered within a rolling
1-second span (see the counterexample). -/
theorem c9_fixed_window (a c : Nat) (ts : List Nat)
    (hin : ∀ t ∈ ts, t - a ≤ rateLimitWindow) :
    runSend ⟨a, c⟩ ts =
      ((List.range ts.length).map fun i => decide (c + i < maxMessagesPerWindow),
       ⟨a, c + ts.length⟩) := by
  induction ts generalizing c with
  | nil => simp [runSend]
  | cons t ts ih =>
    have ht : t - a ≤ rateLimitWindow := hin t (List.mem_cons_self _ _)
    have hnr : ¬t - a > rateLimitWindow := not_lt.mpr ht
    have hrec := ih (c + 1) (fun u hu => hin u (List.mem_cons_of_mem _ hu))
    simp only [runSend, sendMessage, isRateLimited, if_neg hnr, hrec,
      List.length_cons, List.range_succ_eq_map, List.map_cons, List.map_map]
    rw [Prod.mk.injEq, List.cons.injEq]
    refine ⟨⟨?_, ?_⟩, ?_⟩
    · rw [← decide_not, decide_eq_decide]
      simp only [maxMessagesPerWindow]
      omega
    · apply List.map_congr_left
      intro i _
      rw [Function.comp_apply, decide_eq_decide]
      simp only [maxMessagesPerWindow, Nat.succ_eq_add_one]
      omega
    · rw [RateLimitState.mk.injEq]
      refine ⟨rfl, by omega⟩

/-- C9 amended witness: eleven sends in one anchored window — the first
ten are delivered, the eleventh is dropped. -/
theorem c9_fixed_window_witness :
    (∀ t ∈ List.replicate 11 500, t - 0 ≤ rateLimitWindow) ∧
    runSend ⟨0, 0⟩ (List.replicate 11 500) =
      ((List.range (List.replicate 11 500).length).map
        fun i => decide (0 + i < maxMessagesPerWindow),
       ⟨0, 0 + (List.replicate 11 500).length⟩) :=
  ⟨by decide, c9_fixed_window 0 0 _ (by decide)⟩

end JuneApp
